import Mathlib

/-!
Verification of the git-ai sync-and-traversal subsystem.

Shallow embedding of:
  * src/git/authorship_traversal.rs
      (load_all_ai_touched_files, load_all_ai_touched_files_sync,
       get_note_blob_shas, batch_read_blobs, parse_cat_file_batch_output,
       extract_file_paths_from_note)
  * src/commands/hooks/fetch_hooks.rs
      (fetch_pull_pre_command_hook, fetch_pull_post_command_hook,
       pull_post_command_hook, was_fast_forward_pull)

Conventions of the embedding:
  * Rust byte slices (&[u8]) are `List Nat` (each element < 256 in practice).
  * Rust `String` / `&str` values are `List Char`.
  * `std::str::from_utf8` / `String::from_utf8` are the executable decoder
    `utf8Decode` below, which implements the UTF-8 acceptance rules used by
    the Rust standard library (shortest-form encodings, no surrogates,
    code points at most 0x10FFFF).
  * Subprocess execution is abstracted by passing the subprocess result as
    an explicit argument (the code under verification only inspects the
    result of each call).
  * HashSet<String> is a duplicate-free `List (List Char)` built by
    insert-if-absent.
-/

namespace GitAi

/-- Unicode White_Space code points, as recognised by Rust's
`char::is_whitespace` (used by `str::split_whitespace` and `str::trim`). -/
def rustIsWhitespace (c : Char) : Bool :=
  [9, 10, 11, 12, 13, 32, 133, 160, 5760, 8192, 8193, 8194, 8195, 8196,
   8197, 8198, 8199, 8200, 8201, 8202, 8232, 8233, 8239, 8287, 12288].contains c.toNat

/-- Helper for `splitWhitespace`: `acc` holds the (reversed) chars of the
current in-progress token. -/
def splitWhitespaceAux : List Char → List Char → List (List Char)
  | [], acc => if acc = [] then [] else [acc.reverse]
  | c :: rest, acc =>
    if rustIsWhitespace c then
      if acc = [] then splitWhitespaceAux rest []
      else acc.reverse :: splitWhitespaceAux rest []
    else splitWhitespaceAux rest (c :: acc)

/-- Rust `str::split_whitespace`: the maximal non-empty runs of
non-whitespace characters. -/
def splitWhitespace (s : List Char) : List (List Char) :=
  splitWhitespaceAux s []

/-- Rust `str::trim`: remove leading and trailing whitespace. -/
def trimChars (s : List Char) : List Char :=
  ((s.dropWhile rustIsWhitespace).reverse.dropWhile rustIsWhitespace).reverse

/-- Rust `str::split_once(' ')`: split at the first space, if any. -/
def splitOnceSpace : List Char → Option (List Char × List Char)
  | [] => none
  | c :: rest =>
    if c = ' ' then some ([], rest)
    else (splitOnceSpace rest).map (fun p => (c :: p.1, p.2))

/-- Rust `str::parse::<usize>`: an optional leading plus sign, then at
least one ASCII digit, with the value bounded by the 64-bit usize range. -/
def parseUsize (s : List Char) : Option Nat :=
  let t := match s with
    | '+' :: r => r
    | _ => s
  if t = [] then none
  else if t.all Char.isDigit then
    let n := t.foldl (fun a c => a * 10 + (c.toNat - 48)) 0
    if n < 2 ^ 64 then some n else none
  else none

/-- A UTF-8 continuation byte: 0x80 to 0xBF. -/
def contByte (b : Nat) : Bool := 128 ≤ b && b < 192

/-- Executable UTF-8 decoder with the acceptance rules of Rust's
`std::str::from_utf8`: shortest-form sequences only, surrogate code
points rejected, maximum code point 0x10FFFF.  Returns the decoded
characters, or `none` when the bytes are not valid UTF-8. -/
def utf8Decode : List Nat → Option (List Char)
  | [] => some []
  | b :: rest =>
    if b < 128 then
      (utf8Decode rest).map (fun cs => Char.ofNat b :: cs)
    else if b < 194 then none
    else if b < 224 then
      match rest with
      | c1 :: rest2 =>
        if contByte c1 then
          (utf8Decode rest2).map (fun cs =>
            Char.ofNat ((b - 192) * 64 + (c1 - 128)) :: cs)
        else none
      | [] => none
    else if b < 240 then
      match rest with
      | c1 :: c2 :: rest2 =>
        let lo := if b = 224 then 160 else 128
        let hi := if b = 237 then 160 else 192
        if (lo ≤ c1 && c1 < hi) && contByte c2 then
          (utf8Decode rest2).map (fun cs =>
            Char.ofNat ((b - 224) * 4096 + (c1 - 128) * 64 + (c2 - 128)) :: cs)
        else none
      | _ => none
    else if b < 245 then
      match rest with
      | c1 :: c2 :: c3 :: rest2 =>
        let lo := if b = 240 then 144 else 128
        let hi := if b = 244 then 144 else 192
        if (lo ≤ c1 && c1 < hi) && contByte c2 && contByte c3 then
          (utf8Decode rest2).map (fun cs =>
            Char.ofNat ((b - 240) * 262144 + (c1 - 128) * 4096
              + (c2 - 128) * 64 + (c3 - 128)) :: cs)
        else none
      | _ => none
    else none

/-- Index of the first newline byte (10), like
`data[pos..].iter().position(b == newline)` in the Rust parser. -/
def findNL : List Nat → Option Nat
  | [] => none
  | b :: rest => if b = 10 then some 0 else (findNL rest).map (· + 1)

/-- The error type of the crate (src/error.rs is outside the verified
sources; only the shape matched on by the verified code is modelled):
`GitCliError` carries an optional exit code, `Generic` a message, and
`Utf8` stands for the conversion of a `FromUtf8Error`. -/
inductive GitAiError where
  | gitCliError : Option Int → GitAiError
  | generic : String → GitAiError
  | utf8 : GitAiError
deriving DecidableEq

/-- The token compared against `parts[1]` in the batch parser. -/
def missingTok : List Char := "missing".toList

/-- One step of `parse_cat_file_batch_output`'s loop, recursing on the
still-unconsumed suffix of the input.  `fuel` only forces structural
termination; every call consumes at least the header line plus its
newline, so `fuel = data.length` always suffices (see
`parseBatchGo_fuel_irrel`).  Successfully decoded contents are returned
as the decoded characters, mirroring the `Vec<String>` result. -/
def parseBatchGo : Nat → List Nat → Except GitAiError (List (List Char))
  | 0, _ => Except.ok []
  | fuel + 1, data =>
    match findNL data with
    | none => Except.ok []
    | some idx =>
      let header := data.take idx
      let afterHeader := data.drop (idx + 1)
      match utf8Decode header with
      | none => Except.error (GitAiError.generic "Invalid UTF-8 in header")
      | some hch =>
        let parts := splitWhitespace hch
        if parts.length < 2 then parseBatchGo fuel afterHeader
        else if parts.getD 1 [] = missingTok then parseBatchGo fuel afterHeader
        else if parts.length < 3 then parseBatchGo fuel afterHeader
        else
          match parseUsize (parts.getD 2 []) with
          | none => Except.error (GitAiError.generic "Invalid size in cat-file output")
          | some size =>
            if data.length < idx + 1 + size then Except.ok []
            else
              let content := afterHeader.take size
              let next := afterHeader.drop (size + 1)
              match utf8Decode content with
              | some cch => (parseBatchGo fuel next).map (fun r => cch :: r)
              | none => parseBatchGo fuel next

/-- `parse_cat_file_batch_output` (src/git/authorship_traversal.rs):
parse the output of `git cat-file --batch`.  Each record is
`<sha> <type> <size>\n<content bytes>\n`, or `<sha> missing\n` with no
content line.  Missing objects and non-UTF-8 contents are skipped; a
record whose declared size runs past the end of the data, or whose
header line has no terminating newline, stops the parse, returning what
was collected so far. -/
def parse_cat_file_batch_output (data : List Nat) : Except GitAiError (List (List Char)) :=
  parseBatchGo data.length data

/-- A trailing record is truncated when its header line has no
terminating newline, or when its well-formed header declares a size
that extends past the end of the available bytes.  This mirrors the two
break conditions of the parser loop. -/
def truncatedTrailing (T : List Nat) : Bool :=
  match findNL T with
  | none => true
  | some idx =>
    match utf8Decode (T.take idx) with
    | none => false
    | some hch =>
      let parts := splitWhitespace hch
      if parts.length < 2 then false
      else if parts.getD 1 [] = missingTok then false
      else if parts.length < 3 then false
      else
        match parseUsize (parts.getD 2 []) with
        | none => false
        | some size => decide (T.length < idx + 1 + size)

/-- A record of the batch wire format: an object record
`<header>\n<content>\n` or a missing-object record `<header>\n`. -/
inductive RawRecord where
  | obj : List Nat → List Nat → RawRecord
  | miss : List Nat → RawRecord

/-- The bytes of one record, prepended to the remaining stream. -/
def recordBytes : RawRecord → List Nat → List Nat
  | RawRecord.obj h c, tail => h ++ 10 :: (c ++ 10 :: tail)
  | RawRecord.miss h, tail => h ++ 10 :: tail

/-- Concatenate batch records in order, ending with the trailing bytes
`tail`. -/
def buildStream : List RawRecord → List Nat → List Nat
  | [], tail => tail
  | r :: rs, tail => recordBytes r (buildStream rs tail)

/-- Header well-formedness of a record.  An object record needs a
newline-free UTF-8 header of at least three whitespace fields whose
second field is not "missing" and whose third parses to exactly the
content length (the content itself may or may not decode); a missing
record needs a newline-free UTF-8 header whose second field is
"missing". -/
def recordOk : RawRecord → Bool
  | RawRecord.obj h c =>
    decide (¬ 10 ∈ h) &&
    (match utf8Decode h with
     | none => false
     | some hch =>
       let parts := splitWhitespace hch
       decide (3 ≤ parts.length) && !decide (parts.getD 1 [] = missingTok) &&
         decide (parseUsize (parts.getD 2 []) = some c.length))
  | RawRecord.miss h =>
    decide (¬ 10 ∈ h) &&
    (match utf8Decode h with
     | none => false
     | some hch =>
       let parts := splitWhitespace hch
       decide (2 ≤ parts.length) && decide (parts.getD 1 [] = missingTok))

/-- The entries the parser collects from a record list: the decoded
contents of object records whose content is valid UTF-8; missing
records and non-decodable contents contribute nothing. -/
def collectRecords : List RawRecord → List (List Char)
  | [] => []
  | RawRecord.obj _ c :: rs =>
    (match utf8Decode c with
     | some cc => cc :: collectRecords rs
     | none => collectRecords rs)
  | RawRecord.miss _ :: rs => collectRecords rs

/-- Bytes of an ASCII string (used for concrete inputs; agrees with the
UTF-8 encoding on ASCII). -/
def asciiBytes (s : String) : List Nat :=
  s.toList.map Char.toNat

/-- Insert-if-absent, modelling `HashSet::insert`. -/
def hsInsert (s : List (List Char)) (x : List Char) : List (List Char) :=
  if x ∈ s then s else s ++ [x]

/-- Rust `str::find(pattern)`: index of the first occurrence of `pat`
as a contiguous substring of `s`. -/
def findSub (pat s : List Char) : Option Nat :=
  match s with
  | [] => if pat = [] then some 0 else none
  | _ :: rest =>
    if pat.isPrefixOf s then some 0
    else (findSub pat rest).map (· + 1)

/-- The divider pattern searched for by `extract_file_paths_from_note`. -/
def dividerPat : List Char := "\n---\n".toList

/-- The synthetic minimal metadata trailer appended after the divider
(`format!` literal in `extract_file_paths_from_note`). -/
def syntheticTrailer : List Char :=
  "\x7b\"schema_version\":\"authorship/3.0.0\",\"base_commit_sha\":\"\",\"prompts\":\x7b\x7d\x7d".toList

/-- `extract_file_paths_from_note` (src/git/authorship_traversal.rs).
The argument `parse` stands for `AuthorshipLog::deserialize_from_string`.
Modelled from the spec: the external schema parser lives outside the
verified sources, so it is kept abstract; on success it yields the list
of attestation file paths of the document, and it fails on malformed
input (spec section 6).  The verified code slices the payload before the
first `\n---\n`, appends the divider and the synthetic trailer, delegates
to the schema parser and inserts every resulting file path; on a failed
parse or an absent divider it leaves the set untouched. -/
def extract_file_paths_from_note (parse : List Char → Option (List (List Char)))
    (content : List Char) (files : List (List Char)) : List (List Char) :=
  match findSub dividerPat content with
  | none => files
  | some dividerPos =>
    let attestationSection := content.take dividerPos
    let parseable := attestationSection ++ dividerPat ++ syntheticTrailer
    match parse parseable with
    | none => files
    | some atts => atts.foldl hsInsert files

/-- The payload's divider line: exactly three hyphens. -/
def dividerLine : List Char := "---".toList

/-- Decomposition of a text into its newline-separated lines (pure
split at `\n`; the empty text has one empty line).  Used to state which
line of a note payload is the divider. -/
def linesOf : List Char → List (List Char)
  | [] => [[]]
  | c :: rest =>
    if c = '\n' then [] :: linesOf rest
    else
      match linesOf rest with
      | [] => [[c]]
      | l :: ls => (c :: l) :: ls

/-- Rust `str::lines` over already-decoded characters: split at `\n`,
drop one trailing `\r` of each line, and produce no final empty line for
input ending in a newline. -/
def rustLinesAux : List Char → List Char → List (List Char)
  | [], acc => if acc = [] then [] else [acc.reverse]
  | c :: rest, acc =>
    if c = '\n' then
      (match acc with
        | '\r' :: acc' => acc'.reverse
        | _ => acc.reverse) :: rustLinesAux rest []
    else rustLinesAux rest (c :: acc)

/-- Rust `str::lines`. -/
def rustLines (s : List Char) : List (List Char) :=
  rustLinesAux s []

/-- First segment of `str::split('\t')`, i.e. everything before the
first tab. -/
def beforeFirstTab (s : List Char) : List Char :=
  s.takeWhile (fun c => c ≠ '\t')

/-- The ls-tree output parsing loop of `get_note_blob_shas`: for each
non-empty line `<mode> <type> <object>\t<path>`, keep the third
whitespace field truncated at any tab; lines with fewer than three
fields are ignored. -/
def parseLsTreeOutput (stdout : List Char) : List (List Char) :=
  (rustLines stdout).foldr
    (fun line acc =>
      if line = [] then acc
      else
        let parts := splitWhitespace line
        if 3 ≤ parts.length then beforeFirstTab (parts.getD 2 []) :: acc
        else acc)
    []

/-- Matches `GitAiError::GitCliError { code: Some(128), .. }`, the
"ref not found" special case of `get_note_blob_shas`. -/
def isRefNotFound : GitAiError → Bool
  | GitAiError.gitCliError (some 128) => true
  | _ => false

/-- `get_note_blob_shas` (src/git/authorship_traversal.rs): list all
blob SHAs under refs/notes/ai via `git ls-tree -r refs/notes/ai`.
`lsTreeResult` is the outcome of that subprocess call (stdout bytes on
success).  A `GitCliError` with exit code 128 means the ref does not
exist and yields the empty list; any other failure propagates, and
non-UTF-8 stdout is an error (the `String::from_utf8(...)?`). -/
def get_note_blob_shas (lsTreeResult : Except GitAiError (List Nat)) :
    Except GitAiError (List (List Char)) :=
  match lsTreeResult with
  | Except.error e => if isRefNotFound e then Except.ok [] else Except.error e
  | Except.ok stdout =>
    match utf8Decode stdout with
    | none => Except.error GitAiError.utf8
    | some s => Except.ok (parseLsTreeOutput s)

/-- `batch_read_blobs` (src/git/authorship_traversal.rs): empty input
short-circuits with no round trip; otherwise one
`git cat-file --batch` exchange, whose result is abstracted by the
function `batchExec` from the requested SHAs to the subprocess outcome,
followed by `parse_cat_file_batch_output`. -/
def batch_read_blobs (batchExec : List (List Char) → Except GitAiError (List Nat))
    (blob_shas : List (List Char)) : Except GitAiError (List (List Char)) :=
  if blob_shas = [] then Except.ok []
  else
    match batchExec blob_shas with
    | Except.error e => Except.error e
    | Except.ok stdout => parse_cat_file_batch_output stdout

/-- `load_all_ai_touched_files_sync` (src/git/authorship_traversal.rs):
enumerate note blobs, short-circuit on the empty list, batch-read, and
extract all file paths into one deduplicated set. -/
def load_all_ai_touched_files_sync
    (lsTreeResult : Except GitAiError (List Nat))
    (batchExec : List (List Char) → Except GitAiError (List Nat))
    (parse : List Char → Option (List (List Char))) :
    Except GitAiError (List (List Char)) :=
  match get_note_blob_shas lsTreeResult with
  | Except.error e => Except.error e
  | Except.ok blob_shas =>
    if blob_shas = [] then Except.ok []
    else
      match batch_read_blobs batchExec blob_shas with
      | Except.error e => Except.error e
      | Except.ok blob_contents =>
        Except.ok (blob_contents.foldl
          (fun acc content => extract_file_paths_from_note parse content acc) [])

/-- The repository as observed by the traversal pipeline: the outcomes
of the two read-only subprocess calls it issues and the external schema
parser.  Read-only git commands (`ls-tree`, `cat-file --batch`) do not
mutate the repository, so executing the pipeline returns the state
unchanged. -/
structure RepoState where
  lsTreeNotes : Except GitAiError (List Nat)
  catFileBatch : List (List Char) → Except GitAiError (List Nat)
  schemaParse : List Char → Option (List (List Char))

/-- `load_all_ai_touched_files` (the `build_touched_file_index` entry
point): runs the synchronous pipeline on a blocking worker and returns
its result; the repository state passes through unchanged because the
pipeline only issues read commands. -/
def load_all_ai_touched_files (repo : RepoState) :
    Except GitAiError (List (List Char)) × RepoState :=
  (load_all_ai_touched_files_sync repo.lsTreeNotes repo.catFileBatch repo.schemaParse, repo)

/-- `was_fast_forward_pull` (src/commands/hooks/fetch_hooks.rs): check
whether the single most-recent reflog entry (`git reflog -1
--format=%H %gs`) proves a fast-forward pull to `expectedNewHead`.
`reflogResult` is the subprocess outcome: `none` for a failed command,
`some stdout` (already lossily decoded, as `String::from_utf8_lossy`)
on success.  Any failure or parse miss yields `false`, never an error. -/
def was_fast_forward_pull (reflogResult : Option (List Char))
    (expectedNewHead : List Char) : Bool :=
  match reflogResult with
  | none => false
  | some stdout =>
    let outputStr := trimChars stdout
    match splitOnceSpace outputStr with
    | none => false
    | some (sha, subject) =>
      if sha ≠ expectedNewHead then false
      else "pull".toList.isPrefixOf subject && ": Fast-forward".toList.isSuffixOf subject

/-- `CommandHooksContext` (declared in src/commands/git_handlers.rs):
the only field the verified hooks touch is the background-task handle.
Handles are identified by a number. -/
structure CommandHooksContext where
  fetch_authorship_handle : Option Nat
deriving DecidableEq

/-- The observable effects of `fetch_pull_pre_command_hook`, in program
order: scheduling the background update check, spawning the
observability flush, and spawning the background authorship-notes fetch
for a resolved remote. -/
inductive PreEffect where
  | scheduleUpgradeCheck : PreEffect
  | spawnObservabilityFlush : PreEffect
  | spawnAuthorshipNotesFetch : List Char → PreEffect
deriving DecidableEq

/-- `fetch_pull_pre_command_hook` (src/commands/hooks/fetch_hooks.rs).
`isDryRun` is `is_dry_run(&parsed_args.command_args)` and
`remoteResolution` the outcome of `fetch_remote_from_args` (`none` on
failure).  Returns the optional background handle (identified here by
the remote it fetches from) together with the ordered list of effects
the hook performed. -/
def fetch_pull_pre_command_hook (isDryRun : Bool)
    (remoteResolution : Option (List Char)) :
    Option (List Char) × List PreEffect :=
  if isDryRun then (none, [PreEffect.scheduleUpgradeCheck])
  else
    match remoteResolution with
    | none => (none, [PreEffect.scheduleUpgradeCheck, PreEffect.spawnObservabilityFlush])
    | some remote =>
      (some remote,
       [PreEffect.scheduleUpgradeCheck, PreEffect.spawnObservabilityFlush,
        PreEffect.spawnAuthorshipNotesFetch remote])

/-- `fetch_pull_post_command_hook` (src/commands/hooks/fetch_hooks.rs):
take the handle out of the context and join it if present.  Returns the
updated context and the list of handles joined. -/
def fetch_pull_post_command_hook (ctx : CommandHooksContext) :
    CommandHooksContext × List Nat :=
  match ctx.fetch_authorship_handle with
  | some h => (⟨none⟩, [h])
  | none => (⟨none⟩, [])

/-- The inputs `pull_post_command_hook` inspects: the main command's
exit status, the head commit captured at PRE
(`repository.pre_command_base_commit`), the current head
(`repository.head().target()`, `none` when either lookup fails), and
the reflog subprocess outcome consumed by `was_fast_forward_pull`. -/
structure PullPostInput where
  exitSuccess : Bool
  preCommandBaseCommit : Option (List Char)
  headTarget : Option (List Char)
  reflogResult : Option (List Char)

/-- The outcome of `pull_post_command_hook`: the context after the
handle was taken, the joined handles, whether the reflog fast-forward
check ran, and the Working Log rename requested (old head, new head),
if any. -/
structure PullPostResult where
  ctx : CommandHooksContext
  joined : List Nat
  reflogChecked : Bool
  renameRequested : Option (List Char × List Char)

/-- The branch structure of `pull_post_command_hook` after the join:
failed command, missing old or new head, or an unchanged head all stop
before the reflog check; a changed head runs `was_fast_forward_pull`
and requests the rename only on a confirmed fast-forward. -/
def pullPostDecision (inp : PullPostInput) : Bool × Option (List Char × List Char) :=
  if inp.exitSuccess = false then (false, none)
  else
    match inp.preCommandBaseCommit with
    | none => (false, none)
    | some oldHead =>
      match inp.headTarget with
      | none => (false, none)
      | some newHead =>
        if oldHead = newHead then (false, none)
        else if was_fast_forward_pull inp.reflogResult newHead then
          (true, some (oldHead, newHead))
        else (true, none)

/-- `pull_post_command_hook` (src/commands/hooks/fetch_hooks.rs): take
and join the handle, then decide on the Working Log repair; the rename
outcome itself is discarded by the code (`let _ = ...`), so only the
request is recorded. -/
def pull_post_command_hook (inp : PullPostInput) (ctx : CommandHooksContext) :
    PullPostResult :=
  ⟨⟨none⟩,
   (match ctx.fetch_authorship_handle with
     | some h => [h]
     | none => []),
   (pullPostDecision inp).1,
   (pullPostDecision inp).2⟩

/-- C1: the Fast-Forward Detector returns true iff the reflog command
succeeded, its (trimmed) single entry splits on the first space into an
id and a subject, the id equals the expected new head, the subject
starts with the literal "pull" and ends with the literal
": Fast-forward"; every failed command or non-splitting entry yields
false (the function is total and never errors). -/
theorem c1_fast_forward_detector_iff (reflogResult : Option (List Char))
    (expectedNewHead : List Char) :
    was_fast_forward_pull reflogResult expectedNewHead = true ↔
      ∃ stdout sha subject,
        reflogResult = some stdout ∧
        splitOnceSpace (trimChars stdout) = some (sha, subject) ∧
        sha = expectedNewHead ∧
        "pull".toList.isPrefixOf subject = true ∧
        ": Fast-forward".toList.isSuffixOf subject = true := by
  cases reflogResult with
  | none => simp [was_fast_forward_pull]
  | some stdout =>
    simp only [was_fast_forward_pull]
    cases hsp : splitOnceSpace (trimChars stdout) with
    | none => simp [hsp]
    | some p =>
      obtain ⟨sha, subject⟩ := p
      by_cases hsha : sha = expectedNewHead
      · subst hsha
        simp only [hsp, Bool.and_eq_true]
        simp
        aesop
      · simp [hsp, hsha]

/-- C3: a "ref not found" enumeration failure (`GitCliError` with exit
code 128) makes the touched-file index builder return the empty set
with no error, while every other enumeration failure propagates
unchanged. -/
theorem c3_missing_namespace_empty_index :
    (∀ batchExec parse,
      load_all_ai_touched_files_sync
        (Except.error (GitAiError.gitCliError (some 128))) batchExec parse =
        Except.ok []) ∧
    (∀ e batchExec parse, isRefNotFound e = false →
      load_all_ai_touched_files_sync (Except.error e) batchExec parse =
        Except.error e) := by
  constructor
  · intro batchExec parse
    rfl
  · intro e batchExec parse he
    simp [load_all_ai_touched_files_sync, get_note_blob_shas, he]

/-- C3 witness: evaluation at a concrete non-128 failure and at the
128 failure. -/
theorem c3_missing_namespace_empty_index_witness :
    load_all_ai_touched_files_sync
      (Except.error (GitAiError.gitCliError (some 128)))
      (fun _ => Except.ok []) (fun _ => none) = Except.ok [] ∧
    load_all_ai_touched_files_sync
      (Except.error (GitAiError.gitCliError (some 1)))
      (fun _ => Except.ok []) (fun _ => none) =
      Except.error (GitAiError.gitCliError (some 1)) :=
  ⟨c3_missing_namespace_empty_index.1 (fun _ => Except.ok []) (fun _ => none),
   c3_missing_namespace_empty_index.2 (GitAiError.gitCliError (some 1))
     (fun _ => Except.ok []) (fun _ => none) (by decide)⟩

/-- C6: in the pull POST hook, a successful main command whose current
head equals the head captured at PRE skips the reflog fast-forward
check entirely, requests no Working Log rename, and leaves the context
with no handle (the handle was taken and joined). -/
theorem c6_unchanged_head_skips_check (ctx : CommandHooksContext)
    (head : List Char) (reflogResult : Option (List Char)) :
    (pull_post_command_hook ⟨true, some head, some head, reflogResult⟩ ctx).reflogChecked = false ∧
    (pull_post_command_hook ⟨true, some head, some head, reflogResult⟩ ctx).renameRequested = none ∧
    (pull_post_command_hook ⟨true, some head, some head, reflogResult⟩ ctx).ctx.fetch_authorship_handle = none := by
  simp [pull_post_command_hook, pullPostDecision]

/-- C7: under a dry-run invocation the PRE hook returns no background
handle and performs nothing besides scheduling the (non-network,
non-enumeration) upgrade check: no remote resolution, no observability
flush, and no background authorship-notes fetch. -/
theorem c7_dry_run_no_handle_no_effects (remoteResolution : Option (List Char)) :
    fetch_pull_pre_command_hook true remoteResolution =
      (none, [PreEffect.scheduleUpgradeCheck]) := by
  rfl

/-- C8: with no intervening writes (the pipeline issues only read-only
git commands, so the repository state it observes is unchanged), two
successive calls of the touched-file index builder yield identical
results. -/
theorem c8_idempotent_index (repo : RepoState) :
    (load_all_ai_touched_files repo).1 =
      (load_all_ai_touched_files (load_all_ai_touched_files repo).2).1 := by
  rfl

theorem findNL_lt : ∀ (d : List Nat) (i : Nat), findNL d = some i → i < d.length := by
  intro d
  induction d with
  | nil => intro i h; simp [findNL] at h
  | cons b rest ih =>
    intro i h
    simp only [findNL] at h
    by_cases hb : b = 10
    · rw [if_pos hb] at h
      injection h with h
      simp only [List.length_cons]
      omega
    · rw [if_neg hb] at h
      cases hr : findNL rest with
      | none => rw [hr] at h; simp at h
      | some j =>
        rw [hr] at h
        simp at h
        obtain rfl : j + 1 = i := h
        have := ih j hr
        simp only [List.length_cons]
        omega

theorem findNL_append (h : List Nat) (t : List Nat) (hh : ¬ 10 ∈ h) :
    findNL (h ++ 10 :: t) = some h.length := by
  induction h with
  | nil => simp [findNL]
  | cons b rest ih =>
    have hb : b ≠ 10 := fun e => hh (by simp [e])
    have hrest : ¬ 10 ∈ rest := fun e => hh (by simp [e])
    simp only [List.cons_append, findNL, List.append_eq]
    rw [if_neg hb, ih hrest]
    simp

theorem take_header {α : Type} (h : List α) (b : α) (t : List α) :
    (h ++ b :: t).take h.length = h := by
  induction h with
  | nil => rfl
  | cons x rest ih => simp [ih]

theorem drop_header {α : Type} (h : List α) (b : α) (t : List α) :
    (h ++ b :: t).drop (h.length + 1) = t := by
  induction h with
  | nil => rfl
  | cons x rest ih => simp [ih]

theorem parseBatchGo_nil (f : Nat) : parseBatchGo f [] = Except.ok [] := by
  cases f <;> rfl

/-- Fuel only forces termination of `parseBatchGo`: any fuel of at
least the input length gives the same result, since every loop
iteration consumes at least the header line and its newline. -/
theorem parseBatchGo_fuel_irrel :
    ∀ (f1 f2 : Nat) (data : List Nat), data.length ≤ f1 → data.length ≤ f2 →
      parseBatchGo f1 data = parseBatchGo f2 data := by
  intro f1
  induction f1 with
  | zero =>
    intro f2 data h1 _
    have hd : data = [] := List.eq_nil_of_length_eq_zero (Nat.le_zero.mp h1)
    subst hd
    rw [parseBatchGo_nil, parseBatchGo_nil]
  | succ m ih =>
    intro f2 data h1 h2
    cases f2 with
    | zero =>
      have hd : data = [] := List.eq_nil_of_length_eq_zero (Nat.le_zero.mp h2)
      subst hd
      rw [parseBatchGo_nil, parseBatchGo_nil]
    | succ k =>
      cases hF : findNL data with
      | none => simp only [parseBatchGo, hF]
      | some idx =>
        have hidx : idx < data.length := findNL_lt data idx hF
        have hAfter1 : (data.drop (idx + 1)).length ≤ m := by
          simp only [List.length_drop]; omega
        have hAfter2 : (data.drop (idx + 1)).length ≤ k := by
          simp only [List.length_drop]; omega
        cases hD : utf8Decode (data.take idx) with
        | none => simp only [parseBatchGo, hF, hD]
        | some hch =>
          simp only [parseBatchGo, hF, hD]
          split_ifs with hp2 hmis hp3
          · exact ih k _ hAfter1 hAfter2
          · exact ih k _ hAfter1 hAfter2
          · exact ih k _ hAfter1 hAfter2
          · cases hU : parseUsize ((splitWhitespace hch).getD 2 []) with
            | none => simp only [hU]
            | some size =>
              simp only [hU]
              by_cases htr : data.length < idx + 1 + size
              · simp [htr]
              · simp only [if_neg htr]
                have hNext1 : ((data.drop (idx + 1)).drop (size + 1)).length ≤ m := by
                  simp only [List.length_drop]; omega
                have hNext2 : ((data.drop (idx + 1)).drop (size + 1)).length ≤ k := by
                  simp only [List.length_drop]; omega
                cases hC : utf8Decode ((data.drop (idx + 1)).take size) with
                | none => simp only [hC]; exact ih k _ hNext1 hNext2
                | some cch => simp only [hC]; rw [ih k _ hNext1 hNext2]

/-- One loop iteration of the batch parser on a complete object record
`<header>\n<content>\n`: the content is collected when it decodes and
silently dropped otherwise, and parsing continues on the remaining
bytes exactly as on a fresh input. -/
theorem parse_step_object (h hch c rest : _) (hh : ¬ 10 ∈ h)
    (hD : utf8Decode h = some hch)
    (h3 : ¬ (splitWhitespace hch).length < 3)
    (hmis : ¬ (splitWhitespace hch).getD 1 [] = missingTok)
    (hU : parseUsize ((splitWhitespace hch).getD 2 []) = some c.length) :
    parse_cat_file_batch_output (h ++ 10 :: (c ++ 10 :: rest)) =
      match utf8Decode c with
      | some cch => (parse_cat_file_batch_output rest).map (fun r => cch :: r)
      | none => parse_cat_file_batch_output rest := by
  have h2 : ¬ (splitWhitespace hch).length < 2 := by omega
  have hlen : (h ++ 10 :: (c ++ 10 :: rest)).length
      = h.length + c.length + rest.length + 1 + 1 := by
    simp only [List.length_append, List.length_cons]
    omega
  have htr : ¬ (h ++ 10 :: (c ++ 10 :: rest)).length < h.length + 1 + c.length := by
    simp only [List.length_append, List.length_cons]
    omega
  unfold parse_cat_file_batch_output
  rw [hlen]
  generalize hF : h.length + c.length + rest.length + 1 = F
  have hrec : parseBatchGo F rest = parseBatchGo rest.length rest := by
    subst hF
    exact parseBatchGo_fuel_irrel _ _ rest (by omega) (le_refl _)
  simp only [parseBatchGo, findNL_append h _ hh, take_header, drop_header, hD,
    if_neg h2, if_neg hmis, if_neg h3, hU, if_neg htr, hrec]

/-- One loop iteration of the batch parser on a missing-object record
`<header>\n` whose second header field is "missing": no entry is
produced and parsing continues on the remaining bytes exactly as on a
fresh input. -/
theorem parse_step_missing (h hch rest : _) (hh : ¬ 10 ∈ h)
    (hD : utf8Decode h = some hch)
    (h2 : ¬ (splitWhitespace hch).length < 2)
    (hmis : (splitWhitespace hch).getD 1 [] = missingTok) :
    parse_cat_file_batch_output (h ++ 10 :: rest) =
      parse_cat_file_batch_output rest := by
  have hlen : (h ++ 10 :: rest).length = h.length + rest.length + 1 := by
    simp only [List.length_append, List.length_cons]
    omega
  unfold parse_cat_file_batch_output
  rw [hlen]
  generalize hF : h.length + rest.length = F
  have hrec : parseBatchGo F rest = parseBatchGo rest.length rest := by
    subst hF
    exact parseBatchGo_fuel_irrel _ _ rest (by omega) (le_refl _)
  simp only [parseBatchGo, findNL_append h _ hh, take_header, drop_header, hD,
    if_neg h2, if_pos hmis, hrec]

/-- The batch parser returns the empty collection on a lone truncated
trailing record (header without newline, or declared size past the end
of the data). -/
theorem parse_truncated_tail (T : List Nat) (ht : truncatedTrailing T = true) :
    parse_cat_file_batch_output T = Except.ok [] := by
  unfold truncatedTrailing at ht
  cases hF : findNL T with
  | none =>
    cases T with
    | nil => rfl
    | cons t0 T' =>
      unfold parse_cat_file_batch_output
      simp only [List.length_cons, parseBatchGo, hF]
  | some idx =>
    simp only [hF] at ht
    have hne : T ≠ [] := by
      intro e
      rw [e] at hF
      simp [findNL] at hF
    obtain ⟨n, hn⟩ : ∃ n, T.length = n + 1 := by
      cases T with
      | nil => exact absurd rfl hne
      | cons a b => exact ⟨b.length, by simp⟩
    cases hD : utf8Decode (T.take idx) with
    | none => simp [hD] at ht
    | some hch =>
      simp only [hD] at ht
      by_cases h2 : (splitWhitespace hch).length < 2
      · simp [h2] at ht
      · rw [if_neg h2] at ht
        by_cases hmis : (splitWhitespace hch).getD 1 [] = missingTok
        · rw [if_pos hmis] at ht
          simp at ht
        · rw [if_neg hmis] at ht
          by_cases h3 : (splitWhitespace hch).length < 3
          · simp [h3] at ht
          · rw [if_neg h3] at ht
            cases hU : parseUsize ((splitWhitespace hch).getD 2 []) with
            | none =>
              rw [hU] at ht
              simp at ht
            | some size =>
              simp only [hU, decide_eq_true_eq] at ht
              unfold parse_cat_file_batch_output
              rw [hn]
              simp only [parseBatchGo, hF, hD, if_neg h2, if_neg hmis, if_neg h3,
                hU, if_pos ht]

/-- C2: malformed object data is handled non-fatally.  First part: a
record with a well-formed header but content bytes that are not valid
UTF-8 is dropped, and everything after it parses exactly as it would on
a fresh input — no error is produced for that record.  Second part: a
truncated trailing record (header without a newline, or declared size
past the end) makes the parser return what was collected so far, again
without an error. -/
theorem c2_malformed_objects_nonfatal :
    (∀ (h hch c rest : _), ¬ 10 ∈ h → utf8Decode h = some hch →
      ¬ (splitWhitespace hch).length < 3 →
      ¬ (splitWhitespace hch).getD 1 [] = missingTok →
      parseUsize ((splitWhitespace hch).getD 2 []) = some c.length →
      utf8Decode c = none →
      parse_cat_file_batch_output (h ++ 10 :: (c ++ 10 :: rest)) =
        parse_cat_file_batch_output rest) ∧
    (∀ T, truncatedTrailing T = true →
      parse_cat_file_batch_output T = Except.ok []) := by
  constructor
  · intro h hch c rest hh hD h3 hmis hU hC
    rw [parse_step_object h hch c rest hh hD h3 hmis hU, hC]
  · exact parse_truncated_tail

/-- C2 witness: a record declaring one content byte 0xFF (not valid
UTF-8) is dropped and the following record still parses; a lone
truncated record yields the empty collection, not an error. -/
theorem c2_malformed_objects_nonfatal_witness :
    parse_cat_file_batch_output
        ((asciiBytes "s1 blob 1") ++ 10 :: ([255] ++ 10 :: (asciiBytes "s3 blob 1\nx\n"))) =
      parse_cat_file_batch_output (asciiBytes "s3 blob 1\nx\n") ∧
    parse_cat_file_batch_output (asciiBytes "s2 blob 9\nab") = Except.ok [] :=
  ⟨c2_malformed_objects_nonfatal.1 (asciiBytes "s1 blob 1") ("s1 blob 1".toList)
      [255] (asciiBytes "s3 blob 1\nx\n") (by decide) (by decide) (by decide)
      (by decide) (by decide) (by decide),
   c2_malformed_objects_nonfatal.2 (asciiBytes "s2 blob 9\nab") (by decide)⟩

/-- C4: a batch stream of well-formed-header records followed by a
truncated trailing record (declared size past the end, or header line
without a terminating newline) parses to exactly the records collected
before the truncation point, unchanged. -/
theorem c4_truncated_trailing_record (rs : List RawRecord) (T : List Nat)
    (hrs : ∀ r ∈ rs, recordOk r = true)
    (ht : truncatedTrailing T = true) :
    parse_cat_file_batch_output (buildStream rs T) =
      Except.ok (collectRecords rs) := by
  induction rs with
  | nil => simpa using parse_truncated_tail T ht
  | cons r rs ih =>
    have hr := hrs r (by simp)
    have htail := fun q hq => hrs q (List.mem_cons_of_mem _ hq)
    cases r with
    | obj h c =>
      simp only [recordOk, Bool.and_eq_true, decide_eq_true_eq] at hr
      obtain ⟨hh, hrest⟩ := hr
      cases hD : utf8Decode h with
      | none => rw [hD] at hrest; simp at hrest
      | some hch =>
        rw [hD] at hrest
        simp only [Bool.and_eq_true, Bool.not_eq_true', decide_eq_true_eq,
          decide_eq_false_iff_not] at hrest
        obtain ⟨⟨h3, hmis⟩, hU⟩ := hrest
        simp only [buildStream, recordBytes]
        rw [parse_step_object h hch c (buildStream rs T) hh hD (by omega) hmis hU]
        cases hC : utf8Decode c with
        | some cc =>
          simp only [hC]
          rw [ih htail]
          simp [collectRecords, hC, Except.map]
        | none =>
          simp only [hC]
          rw [ih htail]
          simp [collectRecords, hC]
    | miss h =>
      simp only [recordOk, Bool.and_eq_true, decide_eq_true_eq] at hr
      obtain ⟨hh, hrest⟩ := hr
      cases hD : utf8Decode h with
      | none => rw [hD] at hrest; simp at hrest
      | some hch =>
        rw [hD] at hrest
        simp only [Bool.and_eq_true, decide_eq_true_eq] at hrest
        obtain ⟨h2, hmis⟩ := hrest
        simp only [buildStream, recordBytes]
        rw [parse_step_missing h hch (buildStream rs T) hh hD (by omega) hmis]
        rw [ih htail]
        simp [collectRecords]

/-- C4 witness: a complete record and a missing record followed by a
record declaring 99 bytes with only 3 available parses to exactly the
first record's content. -/
theorem c4_truncated_trailing_record_witness :
    parse_cat_file_batch_output
        (buildStream
          [RawRecord.obj (asciiBytes "s1 blob 2") (asciiBytes "hi"),
           RawRecord.miss (asciiBytes "s0 missing")]
          (asciiBytes "s2 blob 99\nabc")) =
      Except.ok (collectRecords
        [RawRecord.obj (asciiBytes "s1 blob 2") (asciiBytes "hi"),
         RawRecord.miss (asciiBytes "s0 missing")]) :=
  c4_truncated_trailing_record
    [RawRecord.obj (asciiBytes "s1 blob 2") (asciiBytes "hi"),
     RawRecord.miss (asciiBytes "s0 missing")]
    (asciiBytes "s2 blob 99\nabc") (by decide) (by decide)

/-- C5: a record `<object-id> missing` with no content line produces no
entry, and all subsequent records parse exactly as they would without
it. -/
theorem c5_missing_object_skipped (h hch oid rest : _) (hh : ¬ 10 ∈ h)
    (hD : utf8Decode h = some hch)
    (hsplit : splitWhitespace hch = [oid, missingTok]) :
    parse_cat_file_batch_output (h ++ 10 :: rest) =
      parse_cat_file_batch_output rest := by
  apply parse_step_missing h hch rest hh hD
  · rw [hsplit]
    simp
  · rw [hsplit]
    rfl

/-- C5 witness: the record "s2 missing" is skipped and the following
record still parses. -/
theorem c5_missing_object_skipped_witness :
    parse_cat_file_batch_output ((asciiBytes "s2 missing") ++ 10 :: (asciiBytes "s3 blob 1\nx\n")) =
      parse_cat_file_batch_output (asciiBytes "s3 blob 1\nx\n") :=
  c5_missing_object_skipped (asciiBytes "s2 missing") ("s2 missing".toList)
    ("s2".toList) (asciiBytes "s3 blob 1\nx\n") (by decide) (by decide) (by decide)

theorem linesOf_ne_nil (s : List Char) : linesOf s ≠ [] := by
  cases s with
  | nil => simp [linesOf]
  | cons c rest =>
    by_cases hc : c = '\n'
    · simp [linesOf, hc]
    · simp only [linesOf, hc, if_false]
      cases linesOf rest <;> simp

theorem linesOf_append (x y : List Char) :
    linesOf (x ++ '\n' :: y) = linesOf x ++ linesOf y := by
  induction x with
  | nil => simp [linesOf]
  | cons c cs ih =>
    by_cases hc : c = '\n'
    · simp [linesOf, hc, ih]
    · obtain ⟨l, ls, hl⟩ := List.exists_cons_of_ne_nil (linesOf_ne_nil cs)
      simp [linesOf, hc, ih, hl]

theorem isPrefixOf_exists (p l : List Char) (hp : p.isPrefixOf l = true) :
    ∃ t, p ++ t = l := by
  induction p generalizing l with
  | nil => exact ⟨l, rfl⟩
  | cons a as ih =>
    cases l with
    | nil => simp [List.isPrefixOf] at hp
    | cons b bs =>
      simp only [List.isPrefixOf, Bool.and_eq_true, beq_iff_eq] at hp
      obtain ⟨rfl, hp'⟩ := hp
      obtain ⟨t, ht⟩ := ih bs hp'
      exact ⟨t, by rw [List.cons_append, ht]⟩

theorem findSub_occurrence (pat s : List Char) (i : Nat)
    (hf : findSub pat s = some i) : ∃ a b, s = a ++ (pat ++ b) := by
  induction s generalizing i with
  | nil =>
    simp only [findSub] at hf
    by_cases hp : pat = ([] : List Char)
    · exact ⟨[], [], by simp [hp]⟩
    · simp [hp] at hf
  | cons c rest ih =>
    simp only [findSub] at hf
    by_cases hp : pat.isPrefixOf (c :: rest) = true
    · obtain ⟨t, ht⟩ := isPrefixOf_exists pat (c :: rest) hp
      exact ⟨[], t, by rw [List.nil_append, ht]⟩
    · rw [if_neg (by simpa using hp)] at hf
      cases hr : findSub pat rest with
      | none => rw [hr] at hf; simp at hf
      | some j =>
        obtain ⟨a, b, hab⟩ := ih j hr
        exact ⟨c :: a, b, by rw [List.cons_append, hab]⟩

/-- C9 (amended): when a note payload's very first line is the divider
"---" and no later line consists exactly of "---", the divider search
(which requires the newline-framed pattern "\n---\n") finds nothing, so
the extractor contributes no file paths — for every behavior of the
external schema parser. -/
theorem c9_initial_divider_not_matched
    (parse : List Char → Option (List (List Char)))
    (p : List Char) (files : List (List Char)) (rest : List (List Char))
    (hfirst : linesOf p = dividerLine :: rest)
    (hrest : ∀ l ∈ rest, l ≠ dividerLine) :
    extract_file_paths_from_note parse p files = files := by
  cases hf : findSub dividerPat p with
  | none => simp [extract_file_paths_from_note, hf]
  | some i =>
    exfalso
    obtain ⟨a, b, hab⟩ := findSub_occurrence dividerPat p i hf
    have hshape : dividerPat ++ b = '\n' :: (dividerLine ++ '\n' :: b) := rfl
    have hsplit : linesOf p = linesOf a ++ (dividerLine :: linesOf b) := by
      rw [hab, hshape, linesOf_append a, linesOf_append dividerLine]
      rfl
    rw [hfirst] at hsplit
    obtain ⟨x, xs, hx⟩ := List.exists_cons_of_ne_nil (linesOf_ne_nil a)
    rw [hx, List.cons_append] at hsplit
    injection hsplit with h1 h2
    refine hrest dividerLine ?_ rfl
    rw [h2]
    exact List.mem_append_right _ (List.mem_cons_self _ _)

/-- C9 witness: a payload whose first line is the divider and whose
remainder has no divider line contributes nothing, even under a schema
parser that accepts everything. -/
theorem c9_initial_divider_not_matched_witness :
    extract_file_paths_from_note (fun _ => some [['p']])
      ("---\nno divider here".toList) [] = [] :=
  c9_initial_divider_not_matched (fun _ => some [['p']])
    ("---\nno divider here".toList) [] ["no divider here".toList]
    (by decide) (by decide)

/-- C9 counterexample to the claim as stated: for the payload
"---\nA: b\n---\nrest" the very first line is the divider, yet the
divider search does find the byte pattern "\n---\n" (at the later
divider), and with a schema parser that succeeds on the resulting
document the extractor does contribute a file path. -/
theorem c9_counterexample :
    (linesOf ("---\nA: b\n---\nrest".toList)).head? = some dividerLine ∧
    findSub dividerPat ("---\nA: b\n---\nrest".toList) ≠ none ∧
    extract_file_paths_from_note (fun _ => some [['p']])
      ("---\nA: b\n---\nrest".toList) [] ≠ [] := by
  refine ⟨?_, ?_, ?_⟩ <;> decide

/-- C10: after either POST hook the context's background-handle field
is None, and because each POST takes the handle out before joining, a
run of both POST hooks on the same context (in either order) joins at
most one handle in total. -/
theorem c10_handle_taken_joined_once (ctx : CommandHooksContext) (inp : PullPostInput) :
    (fetch_pull_post_command_hook ctx).1.fetch_authorship_handle = none ∧
    (pull_post_command_hook inp ctx).ctx.fetch_authorship_handle = none ∧
    ((fetch_pull_post_command_hook ctx).2 ++
      (pull_post_command_hook inp (fetch_pull_post_command_hook ctx).1).joined).length ≤ 1 ∧
    ((pull_post_command_hook inp ctx).joined ++
      (fetch_pull_post_command_hook (pull_post_command_hook inp ctx).ctx).2).length ≤ 1 := by
  cases hh : ctx.fetch_authorship_handle <;>
    simp [fetch_pull_post_command_hook, pull_post_command_hook, hh]

end GitAi
